/-
Verification of the mark-and-sweep garbage collector in `gc.c` / `gc.h`.

Shallow embedding conventions:
 * Addresses and machine words are `Nat`; the null pointer is `0`.
 * The model fixes the Linux x86-64 data layout of the source
   (`sizeof(void*) = 8`, little-endian byte order), which is the primary
   target of the C code; struct sizes are computed from the field layout.
 * Process memory is a function from byte addresses to byte values.
 * The registry (`state->head`, a doubly-linked list of `gc_entry`
   records) is modelled at two levels: as a `List gc_entry` for the
   mark/sweep/alloc logic (the list is the sequence of records reached
   by following `next` from `head`), and as an explicit node store with
   `prev`/`next` indices for `gc_free`, whose pointer surgery is what
   claim C10 is about.
 * Calls into the underlying allocator (`malloc`, `realloc`) are
   modelled by oracle arguments giving the address the allocator
   returns (`0` = allocation failure, mirroring `NULL`).
-/
import Mathlib

namespace GC

/-! ## Definitions

The handful of lemmas interleaved below (`unmarked_cons` through
`lex3`, and `skipTags_bounds`) exist only because the well-founded
recursion of `gc_mark_aux` needs them in its termination proof. -/

/-- Process memory: byte value at each address. -/
def Mem : Type := Nat → Nat

/-- Machine word size in bytes (`sizeof(void*)` on the modelled target). -/
def wordSize : Nat := 8

/-- Read a little-endian machine word at address `a`, as the C code's
`*(void**)(start)` does. -/
def wordAt (m : Mem) (a : Nat) : Nat :=
  m a + 256 * (m (a+1) + 256 * (m (a+2) + 256 * (m (a+3) +
    256 * (m (a+4) + 256 * (m (a+5) + 256 * (m (a+6) + 256 * m (a+7)))))))

/-- The byte string `GC_TAG_STATE` = `"___GC__STATE___"` (15 characters plus the
terminating NUL, 16 bytes in total), as ASCII byte values. -/
def GC_TAG_STATE : List Nat :=
  [95, 95, 95, 71, 67, 95, 95, 83, 84, 65, 84, 69, 95, 95, 95, 0]

/-- The byte string `GC_TAG_ENTRY` = `"___GC__ENTRY___"` (15 characters plus the
terminating NUL, 16 bytes in total), as ASCII byte values. -/
def GC_TAG_ENTRY : List Nat :=
  [95, 95, 95, 71, 67, 95, 95, 69, 78, 84, 82, 89, 95, 95, 95, 0]

/-- Model of `gc_memcmp(a, b, n)`: byte-wise comparison of memory at address `a`
against a literal byte string `b`, over `n` bytes; `true` iff all bytes
agree (the C function stops at the first difference, which computes the
same boolean). -/
def gc_memcmp (m : Mem) (a : Nat) (b : List Nat) (n : Nat) : Bool :=
  (List.range n).all (fun j => m (a + j) == b.getD j 0)

/-- One registry record (`struct _gc_entry`), minus the intrusive
`prev`/`next` links and the `_tag` field, which are only observable to
the node-store model and to the byte-level self-skip logic
respectively.  `ptr = 0` models a `NULL` base. -/
structure gc_entry where
  ptr : Nat
  size : Nat
  reachable : Bool
  /-- Field `reach_addr`; `0` models `NULL`, the "found in registers" sentinel. -/
  reach_addr : Nat
  deriving Repr, DecidableEq

/-- Value of `sizeof(gc_state)` on the modelled target: `_tag[16]` (offset 0),
`stack_start` (16), `data` (24), `bss` (40), `head` (56),
`allocations` (64), `threshold` (72), `flags` (80), padded to
alignment 8. -/
def sizeof_gc_state : Nat := 88

/-- Value of `sizeof(gc_entry)` on the modelled target: `_tag[16]` (offset 0),
`ptr` (16), `size` (24), `reachable` (32, 7 bytes padding),
`reach_addr` (40), `next` (48), `prev` (56). -/
def sizeof_gc_entry : Nat := 64

/-- Number of unmarked records in the registry; the mark engine's
recursion into freshly marked payloads strictly decreases it. -/
def unmarked (es : List gc_entry) : Nat :=
  (es.filter (fun e => !e.reachable)).length

theorem unmarked_cons (e : gc_entry) (es : List gc_entry) :
    unmarked (e :: es) = (if e.reachable then 0 else 1) + unmarked es := by
  simp only [unmarked, List.filter]
  cases h : e.reachable <;> simp <;> omega

theorem unmarked_set_of_get (es : List gc_entry) (i : Nat) (hi : i < es.length)
    (hf : (es.get ⟨i, hi⟩).reachable = false) (e' : gc_entry)
    (he : e'.reachable = true) :
    unmarked (es.set i e') + 1 = unmarked es := by
  induction es generalizing i with
  | nil => simp at hi
  | cons a tl ih =>
    cases i with
    | zero =>
      simp only [List.get] at hf
      simp [List.set, unmarked_cons, hf, he]
      omega
    | succ j =>
      simp only [List.get] at hf
      have hj : j < tl.length := Nat.lt_of_succ_lt_succ hi
      have := ih j hj hf
      simp only [List.set, unmarked_cons]
      omega

theorem unmarked_set_lt (es : List gc_entry) (i : Nat) (hi : i < es.length)
    (hf : (es.get ⟨i, hi⟩).reachable = false) (e' : gc_entry)
    (he : e'.reachable = true) :
    unmarked (es.set i e') < unmarked es := by
  have := unmarked_set_of_get es i hi hf e' he
  omega

/-- Lexicographic descent on `Nat` triples, in the shape produced by
`termination_by` tuples. -/
theorem lex3 {u' d' k' u d k : Nat}
    (h : u' < u ∨ (u' = u ∧ (d' < d ∨ (d' = d ∧ k' < k)))) :
    Prod.Lex Nat.lt (Prod.Lex Nat.lt Nat.lt) (u', d', k') (u, d, k) := by
  rcases h with h | ⟨rfl, h | ⟨rfl, h⟩⟩
  · exact Prod.Lex.left _ _ h
  · exact Prod.Lex.right _ (Prod.Lex.left _ _ h)
  · exact Prod.Lex.right _ (Prod.Lex.right _ h)

/-! ## The mark engine (`gc_mark`)

The C source:

```
void gc_mark (gc_state*state,void *start, void *end, bool check_tags)
{
    end-=sizeof(void*);
    while (start <=end)
    {
        gc_entry *e = state->head;
        while(e!=NULL)
        {
            if (check_tags)
            {
                if (gc_memcmp(start,GC_TAG_STATE,sizeof(GC_TAG_STATE)))
                    start += sizeof(gc_state) -1;
                else if (gc_memcmp(start,GC_TAG_ENTRY,sizeof(GC_TAG_ENTRY)))
                    start += sizeof(gc_entry) -1;
            }
            if ((e->ptr == *(void**)(start)) && (e->reachable == false))
            {
                e->reachable = true;
                e->reach_addr = start;
                gc_mark(state,e->ptr,e->ptr+e->size,true);
            }
            e = e->next;
        }
        start+=sizeof(void*);
    }
}
```

The embedding threads the registry as a list (the inner loop's position
is the index `i`), the cursor `start` as a `Nat`, and additionally
returns the list of addresses at which this invocation evaluates
`*(void**)(start)` (a ghost read log; logs of recursive payload
invocations are not included, so the log describes the reads of one
range's scan, which is what claims C4 and C8 quantify over).  The value
is packaged with the two facts the termination argument of the nested
recursion needs: the registry keeps its length, and the number of
unmarked records never grows.  The `end -= sizeof(void*)` and the loop
test `start <= end` are rendered as `start + wordSize ≤ endd`, which
agrees with the pointer arithmetic whenever `endd ≥ wordSize` (always
true of a C object's one-past-end address). -/

/-- Result of a `gc_mark` invocation: updated registry plus the ghost
read log, with the invariants used by the termination measure. -/
def MarkOut (es : List gc_entry) : Type :=
  { r : List gc_entry × List Nat //
      r.1.length = es.length ∧ unmarked r.1 ≤ unmarked es }

/-- The self-skip block at the top of `gc_mark`'s inner loop: when
`check_tags` is set and the bytes at the cursor match `GC_TAG_STATE`
(resp. `GC_TAG_ENTRY`), the cursor advances by `sizeof(gc_state) - 1`
(resp. `sizeof(gc_entry) - 1`); otherwise it is unchanged. -/
def skipTags (m : Mem) (check_tags : Bool) (start : Nat) : Nat :=
  if check_tags then
    if gc_memcmp m start GC_TAG_STATE 16 then start + (sizeof_gc_state - 1)
    else if gc_memcmp m start GC_TAG_ENTRY 16 then start + (sizeof_gc_entry - 1)
    else start
  else start

theorem skipTags_bounds (m : Mem) (check_tags : Bool) (start : Nat) :
    start ≤ skipTags m check_tags start ∧
    skipTags m check_tags start ≤ start + 87 := by
  unfold skipTags
  split
  · split
    · simp [sizeof_gc_state]
    · split
      · simp [sizeof_gc_entry]
      · omega
  · omega

/-- The mark action on a record: `e->reachable = true;
e->reach_addr = start;`. -/
def markEntry (e : gc_entry) (pos : Nat) : gc_entry :=
  { e with reachable := true, reach_addr := pos }

/-- The nested loops of `gc_mark`: cursor `start`, inner-loop position
`i` into the registry `es`.  `endd` is the original `end` argument
(before the `end -= sizeof(void*)`). -/
def gc_mark_aux (m : Mem) (check_tags : Bool) (endd : Nat)
    (es : List gc_entry) (start : Nat) (i : Nat) : MarkOut es :=
  if hlt : i < es.length then
    -- self-skip, then the candidate-pointer read `*(void**)(start)`
    if hm : wordAt m (skipTags m check_tags start) = (es.get ⟨i, hlt⟩).ptr ∧
        (es.get ⟨i, hlt⟩).reachable = false then
      -- newly marked: record the hit address, then recursively scan the
      -- payload (the C call `gc_mark(state, e->ptr, e->ptr + e->size, true)`)
      let sub : MarkOut (es.set i
          (markEntry (es.get ⟨i, hlt⟩) (skipTags m check_tags start))) :=
        if (es.get ⟨i, hlt⟩).ptr + wordSize ≤
            (es.get ⟨i, hlt⟩).ptr + (es.get ⟨i, hlt⟩).size then
          gc_mark_aux m true ((es.get ⟨i, hlt⟩).ptr + (es.get ⟨i, hlt⟩).size)
            (es.set i (markEntry (es.get ⟨i, hlt⟩) (skipTags m check_tags start)))
            (es.get ⟨i, hlt⟩).ptr 0
        else ⟨(_, []), rfl, Nat.le_refl _⟩
      let rest : MarkOut sub.val.1 :=
        gc_mark_aux m check_tags endd sub.val.1 (skipTags m check_tags start) (i + 1)
      ⟨(rest.val.1, skipTags m check_tags start :: rest.val.2), by
        have h1 := rest.property
        have h2 := sub.property
        have hu : unmarked (es.set i
            (markEntry (es.get ⟨i, hlt⟩) (skipTags m check_tags start))) < unmarked es :=
          unmarked_set_lt es i hlt hm.2 _ rfl
        exact ⟨by rw [h1.1, h2.1, List.length_set],
          le_trans h1.2 (le_trans h2.2 (Nat.le_of_lt hu))⟩⟩
    else
      let rest : MarkOut es :=
        gc_mark_aux m check_tags endd es (skipTags m check_tags start) (i + 1)
      ⟨(rest.val.1, skipTags m check_tags start :: rest.val.2), rest.property⟩
  else
    -- inner loop finished: `start += sizeof(void*)`, re-test the outer loop
    if start + wordSize + wordSize ≤ endd then
      gc_mark_aux m check_tags endd es (start + wordSize) 0
    else ⟨(es, []), rfl, Nat.le_refl _⟩
termination_by (unmarked es, endd + 2 * wordSize - start, es.length - i)
decreasing_by
  · -- recursion into a freshly marked payload
    apply lex3
    exact Or.inl (unmarked_set_lt es i hlt hm.2 _ rfl)
  · -- continuing the inner loop after a mark
    apply lex3
    have h2 := sub.property
    have hu : unmarked (es.set i
        (markEntry (es.get ⟨i, hlt⟩) (skipTags m check_tags start))) < unmarked es :=
      unmarked_set_lt es i hlt hm.2 _ rfl
    exact Or.inl (Nat.lt_of_le_of_lt h2.2 hu)
  · -- continuing the inner loop without a mark
    apply lex3
    have hst := (skipTags_bounds m check_tags start).1
    omega
  · -- next iteration of the outer loop
    apply lex3
    have hW : wordSize = 8 := rfl
    omega

/-- Model of `gc_mark` proper: performs the `end -= sizeof(void*)`, tests the
outer loop condition once, and runs the nested loops.  Returns the
updated registry and the ghost read log. -/
def gc_mark (m : Mem) (check_tags : Bool) (es : List gc_entry)
    (start endd : Nat) : List gc_entry × List Nat :=
  if start + wordSize ≤ endd then (gc_mark_aux m check_tags endd es start 0).val
  else (es, [])

/-- Root-class flag bits from `gc.h`. -/
def GC_SCAN_STACK : Nat := 1

def GC_SCAN_HEAPS : Nat := 2

def GC_SCAN_DATA_SECTION : Nat := 4

def GC_SCAN_BSS_SECTION : Nat := 8

def GC_SCAN_REGISTERS : Nat := 16

/-- Constant `GC_ALLOC_THRESHOLD` from `gc.h`. -/
def GC_ALLOC_THRESHOLD : Nat := 128

/-- Model of `struct _gc_state`, with the registry rendered as the list of
records reached from `head`; ranges are `(start, end)` pairs. -/
structure gc_state where
  head : List gc_entry
  stack_start : Nat
  data : Nat × Nat
  bss : Nat × Nat
  allocations : Nat
  threshold : Nat
  flags : Nat
  deriving Repr, DecidableEq

/-- The platform inputs a collection cycle consumes: process memory, the
register snapshot buffer (as a list of machine words, as the premark
loop strides over it), `gc_current_stack_top()`, and the region list
from `gc_heap_regions()`. -/
structure collect_env where
  mem : Mem
  regs : List Nat
  stack_top : Nat
  heaps : List (Nat × Nat)

/-- The first loop of `_gc_collect`, per record: clear `reachable` and
`reach_addr`, then — when `GC_SCAN_REGISTERS` is in the flag mask —
compare each word of the register snapshot buffer against the record's
`ptr` and pre-mark it on a hit (its `reach_addr` stays `NULL`, the "in
registers" sentinel). -/
def gc_premark_entry (scanRegs : Bool) (regs : List Nat) (e : gc_entry) : gc_entry :=
  let e0 : gc_entry := { e with reachable := false, reach_addr := 0 }
  if scanRegs && regs.any (fun w => w == e0.ptr) then
    { e0 with reachable := true }
  else e0

/-- Model of `gc_sweep`: walk the registry and unlink/free every record whose
`reachable` flag is false.  At list level the unlink of a doubly-linked
node is removal from the sequence (the pointer surgery itself is
verified on the node-store model below).  Note the kept records'
`reachable` flags are left untouched. -/
def gc_sweep : List gc_entry → List gc_entry
  | [] => []
  | e :: tl => if e.reachable = false then gc_sweep tl else e :: gc_sweep tl

/-- Model of `_gc_collect` (the body of the C `gc_collect` macro; the
macro additionally snapshots the registers, which here is the
`env.regs` input): reset/pre-mark every record, scan the enabled root
ranges (stack, data and bss with `check_tags = false`; every heap region
with `check_tags = true`), then sweep. -/
def _gc_collect (st : gc_state) (env : collect_env) : gc_state :=
  let es := st.head.map
    (gc_premark_entry (st.flags &&& GC_SCAN_REGISTERS != 0) env.regs)
  let es := if st.flags &&& GC_SCAN_STACK ≠ 0 then
      (gc_mark env.mem false es env.stack_top st.stack_start).1 else es
  let es := if st.flags &&& GC_SCAN_DATA_SECTION ≠ 0 then
      (gc_mark env.mem false es st.data.1 st.data.2).1 else es
  let es := if st.flags &&& GC_SCAN_BSS_SECTION ≠ 0 then
      (gc_mark env.mem false es st.bss.1 st.bss.2).1 else es
  let es := if st.flags &&& GC_SCAN_HEAPS ≠ 0 then
      env.heaps.foldl (fun acc h => (gc_mark env.mem true acc h.1 h.2).1) es
    else es
  { st with head := gc_sweep es }

/-- Model of `gc_init`.  The C code obtains the state record from `malloc` and
then sets `_tag`, `stack_start`, `data`, `bss`, `head`, `threshold` and
`flags` — but never writes the `allocations` field, so that counter
starts at whatever value the allocator's returned bytes happen to spell;
the parameter `junk` makes that uninitialised value explicit. -/
def gc_init (flags : Nat) (stack_base : Nat) (data bss : Nat × Nat)
    (junk : Nat) : gc_state :=
  { head := [], stack_start := stack_base, data := data, bss := bss,
    allocations := junk, threshold := GC_ALLOC_THRESHOLD, flags := flags }

/-- Outcome of one `gc_alloc` call.  `collected` records whether this
call triggered an automatic collection, and `freed` the addresses the
call handed back to `free()` on its failure path (ghost
instrumentation; the C function's only outputs are the return value and
the mutated state). -/
structure alloc_result where
  state : gc_state
  ret : Nat
  collected : Bool
  freed : List Nat
  deriving Repr, DecidableEq

/-- Model of `gc_alloc`.  Here `mallocPayload` and `mallocEntry` are the results of
the two underlying `malloc` calls (`0` = `NULL`).  The `memset` of a
zero-initialised payload acts on process memory, which the registry
model does not carry, so `zinit` has no observable effect here.  On
success the new record is pushed at the head, the counter is
incremented, and a collection runs when the counter is a nonzero
multiple of the threshold.  The fresh record's `reach_addr` is left
uninitialised by the C code; it is modelled as `0`, which no claim
observes (the next cycle's reset loop overwrites it before any read). -/
def gc_alloc (st : gc_state) (env : collect_env)
    (mallocPayload mallocEntry : Nat) (sz : Nat) (zinit : Bool) : alloc_result :=
  if mallocPayload = 0 then ⟨st, 0, false, []⟩
  else if mallocEntry = 0 then
    -- record allocation failed: free the payload, return NULL
    ⟨st, 0, false, [mallocPayload]⟩
  else
    let e : gc_entry :=
      { ptr := mallocPayload, size := sz, reachable := false, reach_addr := 0 }
    let st1 := { st with head := e :: st.head, allocations := st.allocations + 1 }
    if st1.threshold > 0 ∧ st1.allocations % st1.threshold = 0 then
      ⟨_gc_collect st1 env, mallocPayload, true, []⟩
    else ⟨st1, mallocPayload, false, []⟩

/-- The traversal of `gc_free`, at list level: every record whose `ptr`
equals the argument is unlinked (the loop keeps going after a match). -/
def gc_free_traverse (p : Nat) : List gc_entry → List gc_entry
  | [] => []
  | e :: tl =>
      if e.ptr = p then gc_free_traverse p tl
      else e :: gc_free_traverse p tl

/-- Model of `gc_free` at list level (`NULL` is a no-op). -/
def gc_free_list (st : gc_state) (p : Nat) : gc_state :=
  if p = 0 then st else { st with head := gc_free_traverse p st.head }

/-- The search loop of `gc_realloc`: find the first record whose `ptr`
equals `target`, overwrite its `ptr` with `newPtr` (the result of the
underlying `realloc`; `0` = failure) and return `newPtr`.  `none` when
no record matches (the C loop falls off the list and returns `NULL`).
Note the record's `size` field is not touched. -/
def gc_realloc_loop (newPtr target : Nat) :
    List gc_entry → Option (List gc_entry × Nat)
  | [] => none
  | e :: tl =>
      if e.ptr = target then some ({ e with ptr := newPtr } :: tl, newPtr)
      else (gc_realloc_loop newPtr target tl).map (fun r => (e :: r.1, r.2))

/-- Model of `gc_realloc`.  Here `reallocRes` is the result of the underlying
`realloc` call on the matched record's payload. -/
def gc_realloc (st : gc_state) (env : collect_env)
    (mallocPayload mallocEntry : Nat) (ptr sz reallocRes : Nat) :
    gc_state × Nat :=
  if ptr = 0 then
    let r := gc_alloc st env mallocPayload mallocEntry sz false
    (r.state, r.ret)
  else if sz = 0 then
    (gc_free_list st ptr, 0)
  else
    match gc_realloc_loop reallocRes ptr st.head with
    | some (es, ret) => ({ st with head := es }, ret)
    | none => (st, 0)

/-- A registry record with its intrusive links; node identifiers stand
for the records' addresses. -/
structure gc_node where
  ptr : Nat
  size : Nat
  reachable : Bool
  reach_addr : Nat
  next : Option Nat
  prev : Option Nat
  deriving Repr, DecidableEq

/-- The node store: an association of node identifiers to records. -/
def Heap : Type := List (Nat × gc_node)

/-- Fetch the node with identifier `i`. -/
def lookupN (h : Heap) (i : Nat) : Option gc_node :=
  ((h.find? (fun x => x.1 == i)).map (fun x => x.2))

/-- `entry->prev->next = v` (update applied to every binding of the
identifier; with distinct identifiers this is the single C store). -/
def updNext (h : Heap) (q : Nat) (v : Option Nat) : Heap :=
  h.map (fun x => if x.1 = q then (x.1, { x.2 with next := v }) else x)

/-- `entry->next->prev = v`. -/
def updPrev (h : Heap) (q : Nat) (v : Option Nat) : Heap :=
  h.map (fun x => if x.1 = q then (x.1, { x.2 with prev := v }) else x)

/-- `free(entry)`: drop the node from the store. -/
def removeN (h : Heap) (i : Nat) : Heap :=
  h.filter (fun x => x.1 ≠ i)

/-- The loop of `gc_free`: `cur` is the traversal cursor (`entry`),
`head` the current `state->head`.  Each iteration saves `next`, and on
`entry->ptr == ptr` rewires `prev`/`next`/`head` and frees the node,
then continues from the saved `next`.  Returns the final store and
head.  (The C `free(entry->ptr)` releases payload memory, which the
store does not carry.) -/
def gc_free_loop (p : Nat) : Nat → Heap → Option Nat → Option Nat →
    Heap × Option Nat
  | 0, h, head, _ => (h, head)
  | _ + 1, h, head, none => (h, head)
  | fuel + 1, h, head, some i =>
      match lookupN h i with
      | none => (h, head)
      | some n =>
          if n.ptr = p then
            let h1 := match n.prev with
              | some q => updNext h q n.next
              | none => h
            let head1 := match n.prev with
              | some _ => head
              | none => n.next
            let h2 := match n.next with
              | some r => updPrev h1 r n.prev
              | none => h1
            gc_free_loop p fuel (removeN h2 i) head1 n.next
          else
            gc_free_loop p fuel h head n.next

/-- `gc_free` on the node store (`NULL` is a no-op). -/
def gc_free_heap (h : Heap) (head : Option Nat) (p : Nat) (fuel : Nat) :
    Heap × Option Nat :=
  if p = 0 then (h, head) else gc_free_loop p fuel h head head

/-- `chain h prevId cur l`: starting at `cur`, the store spells out
exactly the id/record pairs `l`, each node's `prev` pointing at the
preceding node (`prevId` before the first), ending with `next = none`.
This is well-formedness of the doubly-linked registry. -/
def chain (h : Heap) : Option Nat → Option Nat → List (Nat × gc_node) → Prop
  | _, cur, [] => cur = none
  | prevId, cur, (i, n) :: l =>
      cur = some i ∧ lookupN h i = some n ∧ n.prev = prevId ∧
        chain h (some i) n.next l

instance (h : Heap) (prevId cur : Option Nat) (l : List (Nat × gc_node)) :
    Decidable (chain h prevId cur l) := by
  induction l generalizing prevId cur with
  | nil => exact (inferInstance : Decidable (cur = none))
  | cons x tl ih =>
    simp only [chain]
    exact @instDecidableAnd _ _ _ (@instDecidableAnd _ _ _
      (@instDecidableAnd _ _ _ (ih _ _)))

/-- The identifiers of a chain fragment. -/
def idsOf (l : List (Nat × gc_node)) : List Nat := l.map (fun x => x.1)

/-- The fragment that survives `gc_free(p)`: every pair whose record's
`ptr` differs from `p`. -/
def keepP (p : Nat) (l : List (Nat × gc_node)) : List (Nat × gc_node) :=
  l.filter (fun x => x.2.ptr ≠ p)

/-- First identifier of a fragment, if any. -/
def headId (l : List (Nat × gc_node)) : Option Nat :=
  l.head?.map (fun x => x.1)

/-- The expected link structure after the removals: same records in the
same order, `prev`/`next` rewired to the surviving neighbours. -/
def relink (prevId : Option Nat) : List (Nat × gc_node) → List (Nat × gc_node)
  | [] => []
  | (i, n) :: l =>
      (i, { n with prev := prevId, next := headId l }) :: relink (some i) l

/-- The payload components of a fragment (everything `relink` and
`keepP` depend on). -/
def strip (l : List (Nat × gc_node)) : List (Nat × Nat × Nat × Bool × Nat) :=
  l.map (fun x => (x.1, x.2.ptr, x.2.size, x.2.reachable, x.2.reach_addr))

/-- The hypothesis that no word of the range `[s, e)` (nor of the
cursor's possible overshoot, bounded by 87 bytes per registry entry for
a two-entry registry) matches `x` or `y`: the decidable no-hit
hypothesis used by the cycle-reclamation theorem. -/
def noHitPair (m : Mem) (x y s e : Nat) : Prop :=
  ∀ p < e + 87 * 2, s ≤ p → p + 8 ≤ e + 87 * 2 → wordAt m p ≠ x ∧ wordAt m p ≠ y

instance (m : Mem) (x y s e : Nat) : Decidable (noHitPair m x y s e) := by
  unfold noHitPair
  infer_instance

/-- All-zero memory. -/
def mem0 : Mem := fun _ => 0

/-- An environment with empty roots. -/
def env0 : collect_env := ⟨mem0, [], 0, []⟩

/-- A freshly initialised state with no flags and a zero counter. -/
def st0 : gc_state := gc_init 0 0 (0, 0) (0, 0) 0

/-- C1 fixture: allocation `a` at base 100 whose 16-byte payload holds
the word 200 (= `b`'s base) in its first word. -/
def aC1 : gc_entry := ⟨100, 16, false, 0⟩

/-- C1 fixture: allocation `b` at base 200, referenced only from `a`'s
payload. -/
def bC1 : gc_entry := ⟨200, 16, false, 0⟩

/-- C1 fixture: memory where the word at address 100 is 200 and every
other word is 0. -/
def memC1 : Mem := fun a => if a = 100 then 200 else 0

/-- C1 fixture: collector tracking `a` and `b`, scanning only
registers. -/
def stC1 : gc_state :=
  { head := [aC1, bC1], stack_start := 0, data := (0, 0), bss := (0, 0),
    allocations := 0, threshold := 128, flags := GC_SCAN_REGISTERS }

/-- C1 fixture: the register snapshot holds `a`'s base (and nothing
else); no other root ranges are enabled. -/
def envC1 : collect_env := ⟨memC1, [100], 0, []⟩

/-- C2/C9 fixture: a collector tracking one 4-byte allocation at
base 100. -/
def stC2 : gc_state :=
  { head := [⟨100, 4, false, 0⟩], stack_start := 0, data := (0, 0),
    bss := (0, 0), allocations := 0, threshold := 128, flags := 0 }

/-- C3 fixture: state as `gc_init` leaves it when the `malloc`-returned
bytes under the never-written `allocations` field spell 125. -/
def stC3 : gc_state := gc_init 0 0 (0, 0) (0, 0) 125

/-- Run `n` successful `gc_alloc` calls (payload at address 1, record
allocation succeeding, 8 bytes, no zero-init) starting from `st`. -/
def allocIter (env : collect_env) : Nat → gc_state → gc_state
  | 0, st => st
  | n + 1, st => allocIter env n (gc_alloc st env 1 1 8 false).state

/-- Whether the `(k+1)`-th successful allocation from `st` triggers an
automatic collection. -/
def collectedAt (env : collect_env) (st : gc_state) (k : Nat) : Bool :=
  (gc_alloc (allocIter env k st) env 1 1 8 false).collected

/-- C5 fixture: one tracked allocation whose base sits in the register
snapshot, registers-only scanning. -/
def stC5 : gc_state :=
  { head := [⟨100, 4, false, 0⟩], stack_start := 0, data := (0, 0),
    bss := (0, 0), allocations := 0, threshold := 128,
    flags := GC_SCAN_REGISTERS }

/-- C5 fixture environment: register snapshot contains the base 100. -/
def envC5 : collect_env := ⟨mem0, [100], 0, []⟩

/-- C5 witness fixture: like `stC5` but a different allocation (base 7,
8 bytes). -/
def stC5w : gc_state :=
  { head := [⟨7, 8, false, 0⟩], stack_start := 0, data := (0, 0),
    bss := (0, 0), allocations := 0, threshold := 128,
    flags := GC_SCAN_REGISTERS }

/-- C5 witness fixture environment. -/
def envC5w : collect_env := ⟨mem0, [7], 0, []⟩

/-- C4/C8 fixture: memory whose bytes 0..15 spell `GC_TAG_STATE` and
which is zero elsewhere. -/
def memC4 : Mem := fun a => if a < 16 then GC_TAG_STATE.getD a 0 else 0

/-- C8 fixture: memory whose bytes 0..15 spell `GC_TAG_ENTRY` and which
is zero elsewhere. -/
def memC8 : Mem := fun a => if a < 16 then GC_TAG_ENTRY.getD a 0 else 0

/-- C6 witness fixture: allocation at base 1000 whose payload's first
word is 2000 (little-endian bytes 208, 7). -/
def aC6 : gc_entry := ⟨1000, 16, false, 0⟩

/-- C6 witness fixture: allocation at base 2000 whose payload's first
word is 1000 (little-endian bytes 232, 3). -/
def bC6 : gc_entry := ⟨2000, 16, false, 0⟩

/-- C6 witness fixture memory: the two payloads refer to each other,
everything else is zero. -/
def memC6 : Mem := fun x =>
  if x = 1000 then 208 else if x = 1001 then 7
  else if x = 2000 then 232 else if x = 2001 then 3 else 0

/-- C6 witness fixture state: stack-only scanning over `[8, 24)`, a
range containing neither base. -/
def stC6 : gc_state :=
  { head := [aC6, bC6], stack_start := 24, data := (0, 0), bss := (0, 0),
    allocations := 0, threshold := 128, flags := GC_SCAN_STACK }

/-- C6 witness fixture environment. -/
def envC6 : collect_env := ⟨memC6, [], 8, []⟩

/-- C6 counterexample fixture memory: bytes 0..15 spell `GC_TAG_ENTRY`,
the word at address 63 is 1000 (bytes 232, 3) — that is `aC6`'s base,
sitting just *past* the scanned heap range `[0, 24)` — and the payloads
at 1000 and 2000 hold each other's base, forming the cycle.  No word
read at an in-range position (`p + 8 ≤ 24`, i.e. `p ≤ 16`) equals
either base: the only way the scan can reach the word at 63 is the
tag-skip overshoot `start += sizeof(gc_entry) - 1`. -/
def memC6x : Mem := fun x =>
  if x < 16 then GC_TAG_ENTRY.getD x 0
  else if x = 63 then 232 else if x = 64 then 3
  else if x = 1000 then 208 else if x = 1001 then 7
  else if x = 2000 then 232 else if x = 2001 then 3 else 0

/-- C6 counterexample fixture state: heap-ranges-only scanning of the
two-record registry. -/
def stC6x : gc_state :=
  { head := [aC6, bC6], stack_start := 0, data := (0, 0), bss := (0, 0),
    allocations := 0, threshold := 128, flags := GC_SCAN_HEAPS }

/-- C6 counterexample fixture environment: one heap region `[0, 24)`. -/
def envC6x : collect_env := ⟨memC6x, [], 0, [(0, 24)]⟩

/-- C10 witness fixture: three records, the first and third with
base 10, the middle one with base 20. -/
def hC10 : Heap :=
  [(1, ⟨10, 4, false, 0, some 2, none⟩),
   (2, ⟨20, 4, false, 0, some 3, some 1⟩),
   (3, ⟨10, 8, false, 0, none, some 2⟩)]

/-- C10 witness fixture: the chain fragment listing of `hC10`. -/
def lC10 : List (Nat × gc_node) :=
  [(1, ⟨10, 4, false, 0, some 2, none⟩),
   (2, ⟨20, 4, false, 0, some 3, some 1⟩),
   (3, ⟨10, 8, false, 0, none, some 2⟩)]

/-! ## Theorems -/

theorem skipTags_false (m : Mem) (start : Nat) :
    skipTags m false start = start := rfl

theorem mem_gc_sweep {e : gc_entry} : ∀ {l : List gc_entry},
    e ∈ gc_sweep l → e.reachable = true := by
  intro l
  induction l with
  | nil => intro h; simp [gc_sweep] at h
  | cons a tl ih =>
    intro h
    simp only [gc_sweep] at h
    by_cases ha : a.reachable = false
    · simp [ha] at h; exact ih h
    · simp [ha] at h
      rcases h with h | h
      · subst h; exact Bool.eq_true_of_not_eq_false ha
      · exact ih h

theorem gc_realloc_loop_first_match (newPtr old : Nat)
    (pre post : List gc_entry) (e : gc_entry)
    (hpre : ∀ x ∈ pre, x.ptr ≠ old) (he : e.ptr = old) :
    gc_realloc_loop newPtr old (pre ++ e :: post) =
      some (pre ++ { e with ptr := newPtr } :: post, newPtr) := by
  induction pre with
  | nil => simp [gc_realloc_loop, he]
  | cons a tl ih =>
    have ha : a.ptr ≠ old := hpre a (by simp)
    have ih' := ih (fun x hx => hpre x (by simp [hx]))
    simp [gc_realloc_loop, ha, ih']

theorem gc_mark_aux_noHit (m : Mem) (check_tags : Bool) (endd : Nat)
    (es : List gc_entry) (start i : Nat) :
    ∀ s0 : Nat, s0 ≤ start →
    (i < es.length → start + 8 ≤ endd + 87 * i) →
    i ≤ es.length →
    (∀ e ∈ es, ∀ p, s0 ≤ p → p + 8 ≤ endd + 87 * es.length → wordAt m p ≠ e.ptr) →
    (gc_mark_aux m check_tags endd es start i).val.1 = es := by
  induction check_tags, endd, es, start, i using gc_mark_aux.induct m with
  | case1 tags endd es start i hlt hm ih1 ih2 =>
    intro s0 hs0 hcur hle H
    exfalso
    have hmem : (es.get ⟨i, hlt⟩) ∈ es := List.get_mem es i hlt
    have hsk := skipTags_bounds m tags start
    have h1 := hcur hlt
    have hb : skipTags m tags start + 8 ≤ endd + 87 * es.length := by
      have h2 : i + 1 ≤ es.length := hlt
      omega
    exact H _ hmem (skipTags m tags start) (by omega) hb hm.1
  | case2 tags endd es start i hlt hm ih =>
    intro s0 hs0 hcur hle H
    have hsk := skipTags_bounds m tags start
    rw [gc_mark_aux.eq_def, dif_pos hlt, dif_neg hm]
    exact ih s0 (by omega) (fun h => by have := hcur hlt; omega) (by omega) H
  | case3 tags endd es start i hlt hguard ih =>
    intro s0 hs0 hcur hle H
    rw [gc_mark_aux.eq_def, dif_neg hlt, if_pos hguard]
    have hW : wordSize = 8 := rfl
    exact ih s0 (by omega) (fun h => by omega) (by omega) H
  | case4 tags endd es start i hlt hguard =>
    intro s0 hs0 hcur hle H
    rw [gc_mark_aux.eq_def, dif_neg hlt, if_neg hguard]

/-- When no scanned position's word can equal any record's base, a
`gc_mark` call leaves the registry unchanged.  Scanned positions lie in
`[start, endd + 87*|es| - 8]`: the cursor starts at `start`, may be
advanced at most `87` bytes per registry entry by self-skip within a
pass, and a pass begins only while the cursor is at most `endd - 8`. -/
theorem gc_mark_noHit (m : Mem) (check_tags : Bool) (es : List gc_entry)
    (start endd : Nat)
    (H : ∀ e ∈ es, ∀ p, start ≤ p → p + 8 ≤ endd + 87 * es.length →
        wordAt m p ≠ e.ptr) :
    (gc_mark m check_tags es start endd).1 = es := by
  rw [gc_mark]
  split
  · rename_i hg
    exact gc_mark_aux_noHit m check_tags endd es start 0 start (le_refl _)
      (fun h => by have hW : wordSize = 8 := rfl; omega)
      (Nat.zero_le _) H
  · rfl

/-- A scan over a registry whose records are all already marked leaves
the registry unchanged: the mark condition requires `e->reachable ==
false`, so no iteration can fire. -/
theorem gc_mark_aux_allMarked (m : Mem) (check_tags : Bool) (endd : Nat)
    (es : List gc_entry) (start i : Nat) :
    (∀ e ∈ es, e.reachable = true) →
    (gc_mark_aux m check_tags endd es start i).val.1 = es := by
  induction check_tags, endd, es, start, i using gc_mark_aux.induct m with
  | case1 tags endd es start i hlt hm sub ihPay ihRest ihRest2 =>
    intro H
    exact absurd (H _ (List.get_mem es i hlt)) (by rw [hm.2]; simp)
  | case2 tags endd es start i hlt hm ih =>
    intro H
    rw [gc_mark_aux.eq_def, dif_pos hlt, dif_neg hm]
    exact ih H
  | case3 tags endd es start i hlt hguard ih =>
    intro H
    rw [gc_mark_aux.eq_def, dif_neg hlt, if_pos hguard]
    exact ih H
  | case4 tags endd es start i hlt hguard =>
    intro H
    rw [gc_mark_aux.eq_def, dif_neg hlt, if_neg hguard]

theorem gc_mark_aux_stride (m : Mem) (check_tags : Bool) (endd : Nat)
    (es : List gc_entry) (start i : Nat) :
    check_tags = false →
    ∀ s0 : Nat, (∃ k, start = s0 + 8 * k) →
    (i < es.length → start + 8 ≤ endd) →
    ∀ p ∈ (gc_mark_aux m check_tags endd es start i).val.2,
      ∃ k, p = s0 + 8 * k ∧ p + 8 ≤ endd := by
  induction check_tags, endd, es, start, i using gc_mark_aux.induct m with
  | case1 tags endd es start i hlt hm sub ihPay ihRest ihRest2 =>
    rintro rfl s0 hstart hcur p hp
    rw [gc_mark_aux.eq_def, dif_pos hlt, dif_pos hm] at hp
    dsimp only at hp
    rcases List.mem_cons.mp hp with rfl | hp2
    · obtain ⟨k, hk⟩ := hstart
      exact ⟨k, hk, hcur hlt⟩
    · exact ihRest2 rfl s0 hstart (fun h => hcur hlt) p hp2
  | case2 tags endd es start i hlt hm ih =>
    rintro rfl s0 hstart hcur p hp
    rw [gc_mark_aux.eq_def, dif_pos hlt, dif_neg hm] at hp
    dsimp only at hp
    rcases List.mem_cons.mp hp with rfl | hp2
    · obtain ⟨k, hk⟩ := hstart
      exact ⟨k, hk, hcur hlt⟩
    · exact ih rfl s0 hstart (fun h => hcur hlt) p hp2
  | case3 tags endd es start i hlt hguard ih =>
    rintro rfl s0 hstart hcur p hp
    rw [gc_mark_aux.eq_def, dif_neg hlt, if_pos hguard] at hp
    have hW : wordSize = 8 := rfl
    refine ih rfl s0 ?_ (fun h => by omega) p hp
    obtain ⟨k, hk⟩ := hstart
    exact ⟨k + 1, by omega⟩
  | case4 tags endd es start i hlt hguard =>
    rintro rfl s0 hstart hcur p hp
    rw [gc_mark_aux.eq_def, dif_neg hlt, if_neg hguard] at hp
    simp at hp

/-- With self-skip disabled, every read of a `gc_mark` invocation is at
a word-stride position within the range. -/
theorem gc_mark_stride (m : Mem) (es : List gc_entry) (start endd : Nat) :
    ∀ p ∈ (gc_mark m false es start endd).2,
      ∃ k, p = start + 8 * k ∧ p + 8 ≤ endd := by
  intro p hp
  rw [gc_mark] at hp
  split at hp
  · rename_i hg
    have hW : wordSize = 8 := rfl
    exact gc_mark_aux_stride m false endd es start 0 rfl start ⟨0, by omega⟩
      (fun h => by omega) p hp
  · simp at hp

theorem gc_premark_entry_noHit (sr : Bool) (regs : List Nat) (e : gc_entry)
    (h : sr = true → e.ptr ∉ regs) :
    gc_premark_entry sr regs e = ⟨e.ptr, e.size, false, 0⟩ := by
  unfold gc_premark_entry
  dsimp only
  split
  · rename_i hcond
    rw [Bool.and_eq_true] at hcond
    exfalso
    obtain ⟨w, hw, hweq⟩ := List.any_eq_true.mp hcond.2
    exact h hcond.1 (by
      have : w = e.ptr := by simpa using hweq
      rwa [this] at hw)
  · rfl

theorem foldl_mark_noHit (m : Mem) (heaps : List (Nat × Nat))
    (es : List gc_entry)
    (H : ∀ r ∈ heaps, (gc_mark m true es r.1 r.2).1 = es) :
    heaps.foldl (fun acc h => (gc_mark m true acc h.1 h.2).1) es = es := by
  induction heaps with
  | nil => rfl
  | cons r tl ih =>
    simp only [List.foldl]
    rw [H r (by simp)]
    exact ih (fun q hq => H q (by simp [hq]))

theorem lookupN_cons (x : Nat × gc_node) (t : Heap) (j : Nat) :
    lookupN (x :: t) j = if x.1 = j then some x.2 else lookupN t j := by
  simp only [lookupN, List.find?]
  by_cases hx : x.1 = j
  · have : (x.1 == j) = true := by simp [hx]
    simp [this, hx]
  · have : (x.1 == j) = false := by simp [hx]
    simp [this, hx]

theorem lookupN_updNext (h : Heap) (q : Nat) (v : Option Nat) (j : Nat) :
    lookupN (updNext h q v) j =
      if j = q then (lookupN h q).map (fun n => { n with next := v })
      else lookupN h j := by
  induction h with
  | nil =>
    simp only [updNext, List.map, lookupN, List.find?, Option.map]
    split <;> rfl
  | cons x t ih =>
    have hcons : updNext (x :: t) q v =
        (if x.1 = q then (x.1, { x.2 with next := v }) else x) :: updNext t q v := by
      simp [updNext]
    rw [hcons]
    by_cases hxq : x.1 = q <;> by_cases hxj : x.1 = j <;>
      by_cases hjq : j = q <;>
      simp_all [lookupN_cons, ih]

theorem lookupN_updPrev (h : Heap) (q : Nat) (v : Option Nat) (j : Nat) :
    lookupN (updPrev h q v) j =
      if j = q then (lookupN h q).map (fun n => { n with prev := v })
      else lookupN h j := by
  induction h with
  | nil =>
    simp only [updPrev, List.map, lookupN, List.find?, Option.map]
    split <;> rfl
  | cons x t ih =>
    have hcons : updPrev (x :: t) q v =
        (if x.1 = q then (x.1, { x.2 with prev := v }) else x) :: updPrev t q v := by
      simp [updPrev]
    rw [hcons]
    by_cases hxq : x.1 = q <;> by_cases hxj : x.1 = j <;>
      by_cases hjq : j = q <;>
      simp_all [lookupN_cons, ih]

theorem lookupN_removeN (h : Heap) (i j : Nat) :
    lookupN (removeN h i) j = if j = i then none else lookupN h j := by
  induction h with
  | nil =>
    simp only [removeN, List.filter, lookupN, List.find?]
    split <;> rfl
  | cons x t ih =>
    by_cases hxi : x.1 = i
    · have hcons : removeN (x :: t) i = removeN t i := by
        simp [removeN, List.filter, hxi]
      rw [hcons, ih, lookupN_cons]
      by_cases hji : j = i
      · simp_all
      · simp_all
        rw [if_neg (Ne.symm hji)]
    · have hcons : removeN (x :: t) i = x :: removeN t i := by
        simp [removeN, List.filter, hxi]
      rw [hcons, lookupN_cons, ih, lookupN_cons]
      by_cases hxj : x.1 = j <;> by_cases hji : j = i <;> simp_all

/-- Chains only look at the nodes they list. -/
theorem chain_congr : ∀ (l : List (Nat × gc_node)) (h h2 : Heap)
    (prevId cur : Option Nat),
    chain h prevId cur l →
    (∀ x ∈ idsOf l, lookupN h2 x = lookupN h x) →
    chain h2 prevId cur l := by
  intro l
  induction l with
  | nil => intro h h2 prevId cur hc _; exact hc
  | cons x t ih =>
    intro h h2 prevId cur hc hagree
    obtain ⟨hcur, hlook, hprev, htail⟩ := hc
    have hids : idsOf (x :: t) = x.1 :: idsOf t := rfl
    refine ⟨hcur, ?_, hprev, ?_⟩
    · rw [hagree x.1 (by rw [hids]; exact List.mem_cons_self _ _)]
      exact hlook
    · exact ih h h2 _ _ htail
        (fun y hy => hagree y (by rw [hids]; exact List.mem_cons_of_mem _ hy))

theorem node_override_eq (a b : gc_node) (pid nx : Option Nat)
    (h1 : a.ptr = b.ptr) (h2 : a.size = b.size) (h3 : a.reachable = b.reachable)
    (h4 : a.reach_addr = b.reach_addr) :
    ({ a with prev := pid, next := nx } : gc_node) =
      { b with prev := pid, next := nx } := by
  cases a
  cases b
  simp_all

theorem node_set_next_self (a : gc_node) (v : Option Nat) (h : a.next = v) :
    ({ a with next := v } : gc_node) = a := by
  cases a
  simp_all

theorem node_next_prev (a : gc_node) (pid v : Option Nat) (h : a.prev = pid) :
    ({ a with next := v } : gc_node) = { a with prev := pid, next := v } := by
  cases a
  simp_all

theorem not_mem_ids_cons {y i : Nat} {n : gc_node} {t : List (Nat × gc_node)} :
    y ∉ idsOf ((i, n) :: t) ↔ y ≠ i ∧ y ∉ idsOf t := by
  simp [idsOf]

theorem headId_strip : ∀ (l1 l2 : List (Nat × gc_node)),
    strip l1 = strip l2 → headId l1 = headId l2 := by
  intro l1 l2 hs
  cases l1 with
  | nil => cases l2 with
    | nil => rfl
    | cons y t2 => simp [strip] at hs
  | cons x t1 => cases l2 with
    | nil => simp [strip] at hs
    | cons y t2 =>
      simp only [strip, List.map] at hs
      have := (List.cons.injEq _ _ _ _).mp hs
      simp only [headId, List.head?]
      have hx : x.1 = y.1 := by
        have := this.1
        simp at this
        exact this.1
      simp [hx]

theorem keepP_strip : ∀ (l1 l2 : List (Nat × gc_node)) (p : Nat),
    strip l1 = strip l2 → strip (keepP p l1) = strip (keepP p l2) := by
  intro l1
  induction l1 with
  | nil =>
    intro l2 p hs
    cases l2 with
    | nil => rfl
    | cons y t2 => simp [strip] at hs
  | cons x t1 ih =>
    intro l2 p hs
    cases l2 with
    | nil => simp [strip] at hs
    | cons y t2 =>
      simp only [strip, List.map] at hs
      have hinj := (List.cons.injEq _ _ _ _).mp hs
      have hx1 : x.1 = y.1 ∧ x.2.ptr = y.2.ptr ∧ x.2.size = y.2.size ∧
          x.2.reachable = y.2.reachable ∧ x.2.reach_addr = y.2.reach_addr := by
        have := hinj.1
        simp at this
        tauto
      have htail := ih t2 p hinj.2
      by_cases hp : x.2.ptr = p
      · have hyp : y.2.ptr = p := by rw [← hx1.2.1]; exact hp
        have e1 : keepP p (x :: t1) = keepP p t1 := by
          simp [keepP, List.filter, hp]
        have e2 : keepP p (y :: t2) = keepP p t2 := by
          simp [keepP, List.filter, hyp]
        rw [e1, e2]
        exact htail
      · have hyp : ¬ y.2.ptr = p := by rw [← hx1.2.1]; exact hp
        have e1 : keepP p (x :: t1) = x :: keepP p t1 := by
          simp [keepP, List.filter, hp]
        have e2 : keepP p (y :: t2) = y :: keepP p t2 := by
          simp [keepP, List.filter, hyp]
        rw [e1, e2]
        simp only [strip, List.map]
        rw [hinj.1]
        have : strip (keepP p t1) = strip (keepP p t2) := htail
        simp only [strip] at this
        rw [this]

theorem relink_strip : ∀ (l1 l2 : List (Nat × gc_node)) (pid : Option Nat),
    strip l1 = strip l2 → relink pid l1 = relink pid l2 := by
  intro l1
  induction l1 with
  | nil =>
    intro l2 pid hs
    cases l2 with
    | nil => rfl
    | cons y t2 => simp [strip] at hs
  | cons x t1 ih =>
    intro l2 pid hs
    cases l2 with
    | nil => simp [strip] at hs
    | cons y t2 =>
      simp only [strip, List.map] at hs
      have hinj := (List.cons.injEq _ _ _ _).mp hs
      have hx1 : x.1 = y.1 ∧ x.2.ptr = y.2.ptr ∧ x.2.size = y.2.size ∧
          x.2.reachable = y.2.reachable ∧ x.2.reach_addr = y.2.reach_addr := by
        have := hinj.1
        simp at this
        tauto
      simp only [relink]
      rw [hx1.1, headId_strip t1 t2 hinj.2, ih t2 (some y.1) hinj.2,
        hx1.2.1, hx1.2.2.1, hx1.2.2.2.1, hx1.2.2.2.2]

theorem gc_free_loop_spec : ∀ (N : Nat) (l : List (Nat × gc_node)) (h : Heap)
    (head prevId cur : Option Nat) (p fuel : Nat),
    l.length ≤ N →
    chain h prevId cur l →
    (idsOf l).Nodup →
    l.length ≤ fuel →
    (∀ q, prevId = some q → q ∉ idsOf l) →
    (prevId = none → head = cur) →
    (∀ q qn, prevId = some q → lookupN h q = some qn → qn.next = cur) →
    chain (gc_free_loop p fuel h head cur).1 prevId
        (headId (keepP p l)) (relink prevId (keepP p l)) ∧
    (prevId = none → (gc_free_loop p fuel h head cur).2 = headId (keepP p l)) ∧
    (∀ q, prevId = some q → (gc_free_loop p fuel h head cur).2 = head ∧
      ∀ qn, lookupN h q = some qn →
        lookupN (gc_free_loop p fuel h head cur).1 q =
          some { qn with next := headId (keepP p l) }) ∧
    (∀ j, j ∉ idsOf l → prevId ≠ some j →
      lookupN (gc_free_loop p fuel h head cur).1 j = lookupN h j) := by
  intro N
  induction N with
  | zero =>
    intro l h head prevId cur p fuel hN hchain hnd hfuel hq hhd hqn
    have hl : l = [] := List.eq_nil_of_length_eq_zero (Nat.le_zero.mp hN)
    subst hl
    have hcur : cur = none := hchain
    subst hcur
    have hres : gc_free_loop p fuel h head none = (h, head) := by
      cases fuel <;> rfl
    rw [hres]
    refine ⟨?_, ?_, ?_, ?_⟩
    · exact rfl
    · intro hpn
      exact hhd hpn
    · intro q hpq
      refine ⟨rfl, fun qn hlq => ?_⟩
      rw [node_set_next_self qn (headId (keepP p [])) (hqn q qn hpq hlq)]
      exact hlq
    · intro j _ _
      rfl
  | succ N ih =>
    intro l h head prevId cur p fuel hN hchain hnd hfuel hq hhd hqn
    cases l with
    | nil =>
      have hcur : cur = none := hchain
      subst hcur
      have hres : gc_free_loop p fuel h head none = (h, head) := by
        cases fuel <;> rfl
      rw [hres]
      refine ⟨?_, ?_, ?_, ?_⟩
      · exact rfl
      · intro hpn
        exact hhd hpn
      · intro q hpq
        refine ⟨rfl, fun qn hlq => ?_⟩
        rw [node_set_next_self qn (headId (keepP p [])) (hqn q qn hpq hlq)]
        exact hlq
      · intro j _ _
        rfl
    | cons x t =>
      obtain ⟨i, n⟩ := x
      obtain ⟨hcur, hlook, hprev, htail⟩ := hchain
      subst hcur
      have hint : i ∉ idsOf t := (List.nodup_cons.mp hnd).1
      have hndt : (idsOf t).Nodup := (List.nodup_cons.mp hnd).2
      cases fuel with
      | zero => simp at hfuel
      | succ f =>
        have hlf : t.length ≤ f := by
          simp at hfuel
          omega
        have hlN : t.length ≤ N := by
          simp at hN
          omega
        by_cases hp : n.ptr = p
        · -- matching record: unlink, free, continue from the saved next
          cases t with
          | nil =>
            have hnn : n.next = none := htail
            have hkeep : keepP p [(i, n)] = [] := by
              simp [keepP, List.filter, hp]
            rcases prevId with _ | q
            · -- removed node was the head: state->head = entry->next
              have hstep : gc_free_loop p (f + 1) h head (some i) =
                  (removeN h i, none) := by
                simp only [gc_free_loop, hlook, hprev, hnn]
                rw [if_pos hp]
                cases f <;> rfl
              rw [hstep, hkeep]
              refine ⟨?_, ?_, ?_, ?_⟩
              · exact rfl
              · intro _
                rfl
              · intro q hpq
                exact Option.noConfusion hpq
              · intro j hj _
                have hji : j ≠ i := (not_mem_ids_cons.mp hj).1
                rw [lookupN_removeN, if_neg hji]
            · -- removed node had the surviving predecessor q
              have hqmem := hq q rfl
              have hqi : q ≠ i := (not_mem_ids_cons.mp hqmem).1
              have hstep : gc_free_loop p (f + 1) h head (some i) =
                  (removeN (updNext h q n.next) i, head) := by
                simp only [gc_free_loop, hlook, hprev, hnn]
                rw [if_pos hp]
                cases f <;> rfl
              rw [hstep, hkeep]
              refine ⟨?_, ?_, ?_, ?_⟩
              · exact rfl
              · intro hpn
                exact Option.noConfusion hpn
              · intro q2 hpq
                injection hpq with hpq
                subst hpq
                refine ⟨rfl, fun qn hlq => ?_⟩
                rw [lookupN_removeN, if_neg hqi, lookupN_updNext, if_pos rfl,
                  hlq, hnn]
                rfl
              · intro j hj hpj
                have hji : j ≠ i := (not_mem_ids_cons.mp hj).1
                have hjq : j ≠ q := fun hc => hpj (by rw [hc])
                rw [lookupN_removeN, if_neg hji, lookupN_updNext, if_neg hjq]
          | cons y t2 =>
            obtain ⟨r, rn⟩ := y
            obtain ⟨hnr, hlookr, hrprev, htail2⟩ := htail
            have hir : i ≠ r := fun hc => hint (by simp [idsOf, hc])
            have hri : r ≠ i := fun hc => hir hc.symm
            have hrt2 : r ∉ idsOf t2 := (List.nodup_cons.mp hndt).1
            have hkeepL : keepP p ((i, n) :: (r, rn) :: t2) =
                keepP p ((r, rn) :: t2) := by
              simp [keepP, List.filter, hp]
            rcases prevId with _ | q
            · -- head removal with a surviving successor r
              have hstep : gc_free_loop p (f + 1) h head (some i) =
                  gc_free_loop p f (removeN (updPrev h r none) i) n.next
                    n.next := by
                simp only [gc_free_loop, hlook]
                rw [if_pos hp]
                simp only [hprev, hnr]
              rw [hstep]
              have hchain3 : chain (removeN (updPrev h r none) i) none n.next
                  ((r, { rn with prev := none }) :: t2) := by
                refine ⟨hnr, ?_, rfl, ?_⟩
                · rw [lookupN_removeN, if_neg hri, lookupN_updPrev,
                    if_pos rfl, hlookr]
                  rfl
                · refine chain_congr t2 h _ (some r) rn.next htail2 ?_
                  intro y hy
                  have hyi : y ≠ i := fun hc => hint (by
                    subst hc
                    exact List.mem_cons_of_mem _ hy)
                  have hyr : y ≠ r := fun hc => hrt2 (hc ▸ hy)
                  rw [lookupN_removeN, if_neg hyi, lookupN_updPrev, if_neg hyr]
              have hrec := ih ((r, { rn with prev := none }) :: t2)
                (removeN (updPrev h r none) i) n.next none n.next p f
                (by simpa using hlN) hchain3
                (by simpa [idsOf] using hndt)
                (by simpa using hlf)
                (fun q2 hq2 => Option.noConfusion hq2)
                (fun _ => rfl)
                (fun q2 qn hq2 => Option.noConfusion hq2)
              have hstrip : strip ((r, { rn with prev := none }) :: t2) =
                  strip ((r, rn) :: t2) := rfl
              have hkeq : strip (keepP p ((r, { rn with prev := none }) :: t2)) =
                  strip (keepP p ((r, rn) :: t2)) :=
                keepP_strip _ _ p hstrip
              rw [hkeepL]
              refine ⟨?_, ?_, ?_, ?_⟩
              · rw [← headId_strip _ _ hkeq, ← relink_strip _ _ none hkeq]
                exact hrec.1
              · intro _
                rw [← headId_strip _ _ hkeq]
                exact hrec.2.1 rfl
              · intro q2 hq2
                exact Option.noConfusion hq2
              · intro j hj hpj
                have hji : j ≠ i := (not_mem_ids_cons.mp hj).1
                have hjrest := (not_mem_ids_cons.mp hj).2
                have hjr : j ≠ r := (not_mem_ids_cons.mp hjrest).1
                have hjt2 : j ∉ idsOf t2 := (not_mem_ids_cons.mp hjrest).2
                have hjt : j ∉ idsOf ((r, { rn with prev := none }) :: t2) :=
                  not_mem_ids_cons.mpr ⟨hjr, hjt2⟩
                rw [hrec.2.2.2 j hjt (fun hc => Option.noConfusion hc),
                  lookupN_removeN, if_neg hji, lookupN_updPrev, if_neg hjr]
            · -- mid-chain removal: q survives before, r after
              have hqmem := hq q rfl
              have hqi : q ≠ i := (not_mem_ids_cons.mp hqmem).1
              have hqrest := (not_mem_ids_cons.mp hqmem).2
              have hqr : q ≠ r := (not_mem_ids_cons.mp hqrest).1
              have hqt2 : q ∉ idsOf t2 := (not_mem_ids_cons.mp hqrest).2
              have hrq : r ≠ q := fun hc => hqr hc.symm
              have hstep : gc_free_loop p (f + 1) h head (some i) =
                  gc_free_loop p f
                    (removeN (updPrev (updNext h q n.next) r (some q)) i) head
                    n.next := by
                simp only [gc_free_loop, hlook]
                rw [if_pos hp]
                simp only [hprev, hnr]
              rw [hstep]
              have hchain3 : chain
                  (removeN (updPrev (updNext h q n.next) r (some q)) i) (some q)
                  n.next ((r, { rn with prev := some q }) :: t2) := by
                refine ⟨hnr, ?_, rfl, ?_⟩
                · rw [lookupN_removeN, if_neg hri, lookupN_updPrev,
                    if_pos rfl, lookupN_updNext, if_neg hrq, hlookr]
                  rfl
                · refine chain_congr t2 h _ (some r) rn.next htail2 ?_
                  intro y hy
                  have hyi : y ≠ i := fun hc => hint (by
                    subst hc
                    exact List.mem_cons_of_mem _ hy)
                  have hyr : y ≠ r := fun hc => hrt2 (hc ▸ hy)
                  have hyq : y ≠ q := fun hc => hqt2 (hc ▸ hy)
                  rw [lookupN_removeN, if_neg hyi, lookupN_updPrev, if_neg hyr,
                    lookupN_updNext, if_neg hyq]
              have hqnotin : ∀ q2 : Nat, (some q : Option Nat) = some q2 →
                  q2 ∉ idsOf ((r, { rn with prev := some q }) :: t2) := by
                intro q2 hq2
                injection hq2 with hq2
                subst hq2
                exact not_mem_ids_cons.mpr ⟨hqr, hqt2⟩
              have hqnext3 : ∀ (q2 : Nat) (qn : gc_node),
                  (some q : Option Nat) = some q2 →
                  lookupN (removeN (updPrev (updNext h q n.next) r (some q)) i)
                    q2 = some qn → qn.next = n.next := by
                intro q2 qn hq2 hlq
                injection hq2 with hq2
                subst hq2
                rw [lookupN_removeN, if_neg hqi, lookupN_updPrev, if_neg hqr,
                  lookupN_updNext, if_pos rfl] at hlq
                rcases hlk : lookupN h q with _ | qn0
                · rw [hlk] at hlq
                  exact Option.noConfusion hlq
                · rw [hlk] at hlq
                  injection hlq with hlq
                  rw [← hlq]
              have hrec := ih ((r, { rn with prev := some q }) :: t2)
                (removeN (updPrev (updNext h q n.next) r (some q)) i) head
                (some q) n.next p f
                (by simpa using hlN) hchain3
                (by simpa [idsOf] using hndt)
                (by simpa using hlf)
                hqnotin
                (fun hc => Option.noConfusion hc)
                hqnext3
              have hstrip : strip ((r, { rn with prev := some q }) :: t2) =
                  strip ((r, rn) :: t2) := rfl
              have hkeq : strip (keepP p ((r, { rn with prev := some q }) :: t2)) =
                  strip (keepP p ((r, rn) :: t2)) :=
                keepP_strip _ _ p hstrip
              rw [hkeepL]
              refine ⟨?_, ?_, ?_, ?_⟩
              · rw [← headId_strip _ _ hkeq, ← relink_strip _ _ (some q) hkeq]
                exact hrec.1
              · intro hc
                exact Option.noConfusion hc
              · intro q2 hq2
                injection hq2 with hq2
                subst hq2
                refine ⟨(hrec.2.2.1 q rfl).1, fun qn hlq => ?_⟩
                have hlq3 : lookupN
                    (removeN (updPrev (updNext h q n.next) r (some q)) i) q =
                    some { qn with next := n.next } := by
                  rw [lookupN_removeN, if_neg hqi, lookupN_updPrev, if_neg hqr,
                    lookupN_updNext, if_pos rfl, hlq]
                  rfl
                have hres := (hrec.2.2.1 q rfl).2 _ hlq3
                rw [← headId_strip _ _ hkeq, hres]
              · intro j hj hpj
                have hji : j ≠ i := (not_mem_ids_cons.mp hj).1
                have hjrest := (not_mem_ids_cons.mp hj).2
                have hjr : j ≠ r := (not_mem_ids_cons.mp hjrest).1
                have hjt2 : j ∉ idsOf t2 := (not_mem_ids_cons.mp hjrest).2
                have hjq : j ≠ q := fun hc => hpj (by rw [hc])
                have hjt : j ∉ idsOf ((r, { rn with prev := some q }) :: t2) :=
                  not_mem_ids_cons.mpr ⟨hjr, hjt2⟩
                rw [hrec.2.2.2 j hjt
                    (fun hc => hjq (by injection hc with hc; exact hc.symm)),
                  lookupN_removeN, if_neg hji, lookupN_updPrev, if_neg hjr,
                  lookupN_updNext, if_neg hjq]
        · -- surviving record: continue from its next
          have hstep : gc_free_loop p (f + 1) h head (some i) =
              gc_free_loop p f h head n.next := by
            simp only [gc_free_loop, hlook]
            rw [if_neg hp]
          rw [hstep]
          have hrec := ih t h head (some i) n.next p f hlN htail hndt hlf
            (fun q2 hq2 => by injection hq2 with hq2; exact hq2 ▸ hint)
            (fun hc => Option.noConfusion hc)
            (fun q2 qn hq2 hlq => by
              injection hq2 with hq2
              subst hq2
              rw [hlook] at hlq
              injection hlq with hlq
              rw [← hlq])
          have hkeepL : keepP p ((i, n) :: t) = (i, n) :: keepP p t := by
            simp [keepP, List.filter, hp]
          rw [hkeepL]
          have hheadI : headId ((i, n) :: keepP p t) = some i := rfl
          rw [hheadI]
          have hlookI := (hrec.2.2.1 i rfl).2 n hlook
          refine ⟨?_, ?_, ?_, ?_⟩
          · refine ⟨rfl, ?_, rfl, ?_⟩
            · rw [hlookI, node_next_prev n prevId (headId (keepP p t)) hprev]
            · exact hrec.1
          · intro hpn
            rw [(hrec.2.2.1 i rfl).1]
            exact hhd hpn
          · intro q2 hq2
            subst hq2
            have hqmem := hq q2 rfl
            have hq2i : q2 ≠ i := (not_mem_ids_cons.mp hqmem).1
            have hq2t : q2 ∉ idsOf t := (not_mem_ids_cons.mp hqmem).2
            refine ⟨(hrec.2.2.1 i rfl).1, fun qn hlq => ?_⟩
            rw [hrec.2.2.2 q2 hq2t
              (fun hc => hq2i (by injection hc with hc; exact hc.symm)), hlq]
            have hqnext : qn.next = some i := hqn q2 qn rfl hlq
            rw [node_set_next_self qn (some i) hqnext]
          · intro j hj hpj
            have hji : j ≠ i := (not_mem_ids_cons.mp hj).1
            have hjt : j ∉ idsOf t := (not_mem_ids_cons.mp hj).2
            exact hrec.2.2.2 j hjt
              (fun hc => hji (by injection hc with hc; exact hc.symm))

theorem gc_free_loop_noMatch : ∀ (l : List (Nat × gc_node)) (h : Heap)
    (head prevId cur : Option Nat) (p fuel : Nat),
    chain h prevId cur l →
    (∀ x ∈ l, x.2.ptr ≠ p) →
    l.length ≤ fuel →
    gc_free_loop p fuel h head cur = (h, head) := by
  intro l
  induction l with
  | nil =>
    intro h head prevId cur p fuel hchain _ _
    have hcur : cur = none := hchain
    subst hcur
    cases fuel <;> rfl
  | cons x t ih =>
    intro h head prevId cur p fuel hchain hnm hfuel
    obtain ⟨i, n⟩ := x
    obtain ⟨hcur, hlook, hprev, htail⟩ := hchain
    subst hcur
    cases fuel with
    | zero => simp at hfuel
    | succ f =>
      have hstep : gc_free_loop p (f + 1) h head (some i) =
          gc_free_loop p f h head n.next := by
        simp only [gc_free_loop, hlook]
        rw [if_neg (hnm (i, n) (by simp))]
      rw [hstep]
      exact ih h head (some i) n.next p f htail
        (fun y hy => hnm y (by simp [hy]))
        (by simp at hfuel; omega)

/-- C1 (code bug): `b` (base 200) is reachable only through the payload
of `a` (base 100), and `a`'s base sits in the register snapshot, so by
the claim both must survive the cycle.  On the code, the register
pre-mark sets `a.reachable` without scanning `a`'s payload, and
`gc_mark` recurses into a payload only for records whose `reachable`
flag is still false — so `a`'s payload is never scanned and `b` is
swept while still reachable. -/
theorem c1_register_premark_not_transitive :
    (100 ∈ envC1.regs) ∧
    aC1.ptr = 100 ∧
    wordAt memC1 aC1.ptr = bC1.ptr ∧
    (_gc_collect stC1 envC1).head = [⟨100, 16, true, 0⟩] := by
  refine ⟨by decide, by decide, by decide, by decide⟩

/-- C2 (code bug): resizing tracked base 100 from 4 to 12 bytes, with
the underlying `realloc` returning the new address 200, updates the
record's base and returns 200 — but leaves the record's `size` at 4,
not 12: `gc_realloc` never writes the `size` field, contradicting the
claim (and the registry invariant that `size` equals the size argument
of the last successful resize). -/
theorem c2_realloc_size_stale :
    gc_realloc stC2 env0 0 0 100 12 200 =
      ({ stC2 with head := [⟨200, 4, false, 0⟩] }, 200) ∧
    ((gc_realloc stC2 env0 0 0 100 12 200).1.head.map (fun e => e.size)) = [4] ∧
    (4 : Nat) ≠ 12 := by
  refine ⟨by decide, by decide, by decide⟩

/-- C3 (code bug): `gc_init` never writes `state->allocations`, so the
counter starts at the junk value left by `malloc` rather than 0.  With
junk 125 and the default threshold 128, the very 3rd successful
allocation (not the 128th) triggers the first automatic collection:
the claim's "first automatic cycle happens on the T-th successful
allocation and never earlier" fails on the code. -/
theorem c3_first_collection_before_threshold :
    stC3.threshold = 128 ∧
    collectedAt env0 stC3 2 = true ∧
    (∀ k < 2, collectedAt env0 stC3 k = false) ∧
    2 + 1 < 128 := by
  refine ⟨by decide, by decide, by decide, by decide⟩

/-- C4 counterexample: on a heap scan with the `GC_TAG_STATE` bytes at
the cursor, the cursor advances by `sizeof(gc_state) - 1` = 87 — one
byte less than the record size, not one word less (which would be 80) —
and 87 is not word-aligned, so the claim's "advances by the known size
of that record less one word" and "the scan position stays
word-aligned" are both false. -/
theorem c4_skip_counterexample :
    (gc_mark memC4 true [⟨5, 4, false, 0⟩] 0 32).2 = [87] ∧
    87 ≠ 0 + (sizeof_gc_state - wordSize) ∧
    ¬ (87 % wordSize = 0) := by
  refine ⟨?_, by decide, by decide⟩
  rw [gc_mark, if_pos (by decide : 0 + wordSize ≤ 32)]
  rw [gc_mark_aux.eq_def, dif_pos (by decide : 0 < [(⟨5, 4, false, 0⟩ : gc_entry)].length)]
  rw [dif_neg (by decide : ¬ (wordAt memC4 (skipTags memC4 true 0) =
    ([(⟨5, 4, false, 0⟩ : gc_entry)].get ⟨0, by decide⟩).ptr ∧
    ([(⟨5, 4, false, 0⟩ : gc_entry)].get ⟨0, by decide⟩).reachable = false))]
  dsimp only
  rw [gc_mark_aux.eq_def, dif_neg (by decide : ¬ (1 < [(⟨5, 4, false, 0⟩ : gc_entry)].length))]
  rw [if_neg (by decide : ¬ (skipTags memC4 true 0 + wordSize + wordSize ≤ 32))]
  have : skipTags memC4 true 0 = 87 := by decide
  simp [this]

/-- C4 amended: during a heap-range scan (self-skip enabled), a
`GC_TAG_STATE` match at the cursor makes the next candidate read happen
exactly `sizeof(gc_state) - 1` bytes ahead, and a `GC_TAG_ENTRY` match
(the state tag not matching) makes it happen exactly
`sizeof(gc_entry) - 1` bytes ahead — the record body is bypassed, but
the cursor moves by the record size less one *byte*, so word alignment
is not preserved; with self-skip disabled (as on stack and globals
scans, where `_gc_collect` passes `check_tags = false`) the read happens
at the cursor itself even when the tag bytes match. -/
theorem c4_selfskip_advance (m : Mem) (es : List gc_entry) (start endd : Nat)
    (hne : 0 < es.length) (hg : start + wordSize ≤ endd) :
    (gc_memcmp m start GC_TAG_STATE 16 = true →
      (gc_mark m true es start endd).2.head? =
        some (start + (sizeof_gc_state - 1))) ∧
    (gc_memcmp m start GC_TAG_STATE 16 = false →
      gc_memcmp m start GC_TAG_ENTRY 16 = true →
      (gc_mark m true es start endd).2.head? =
        some (start + (sizeof_gc_entry - 1))) ∧
    (gc_mark m false es start endd).2.head? = some start := by
  have key : ∀ ct : Bool,
      (gc_mark m ct es start endd).2.head? = some (skipTags m ct start) := by
    intro ct
    rw [gc_mark, if_pos hg, gc_mark_aux.eq_def, dif_pos hne]
    by_cases hm : wordAt m (skipTags m ct start) = (es.get ⟨0, hne⟩).ptr ∧
        (es.get ⟨0, hne⟩).reachable = false
    · rw [dif_pos hm]
      simp only [List.head?_cons]
    · rw [dif_neg hm]
      simp only [List.head?_cons]
  refine ⟨fun hstate => ?_, fun hnstate hentry => ?_, ?_⟩
  · rw [key true]
    simp [skipTags, hstate]
  · rw [key true]
    simp [skipTags, hnstate, hentry]
  · rw [key false]
    simp [skipTags]

/-- Witness for `c4_selfskip_advance`, exercising all three branches at
concrete inputs: a state-tag match (`memC4`), an entry-tag match
(`memC8`), and a tags-disabled scan. -/
theorem c4_selfskip_advance_witness :
    (0 < [(⟨5, 4, false, 0⟩ : gc_entry)].length ∧ 0 + wordSize ≤ 32 ∧
      gc_memcmp memC4 0 GC_TAG_STATE 16 = true ∧
      gc_memcmp memC8 0 GC_TAG_STATE 16 = false ∧
      gc_memcmp memC8 0 GC_TAG_ENTRY 16 = true) ∧
    (gc_mark memC4 true [⟨5, 4, false, 0⟩] 0 32).2.head? =
      some (0 + (sizeof_gc_state - 1)) ∧
    (gc_mark memC8 true [⟨5, 4, false, 0⟩] 0 32).2.head? =
      some (0 + (sizeof_gc_entry - 1)) ∧
    (gc_mark memC4 false [⟨5, 4, false, 0⟩] 0 32).2.head? = some 0 :=
  ⟨⟨by decide, by decide, by decide, by decide, by decide⟩,
    (c4_selfskip_advance memC4 [⟨5, 4, false, 0⟩] 0 32
      (by decide) (by decide)).1 (by decide),
    (c4_selfskip_advance memC8 [⟨5, 4, false, 0⟩] 0 32
      (by decide) (by decide)).2.1 (by decide) (by decide),
    (c4_selfskip_advance memC4 [⟨5, 4, false, 0⟩] 0 32
      (by decide) (by decide)).2.2⟩

/-- C5 counterexample: a record pre-marked from the register snapshot
survives the cycle, and after `_gc_collect` returns (i.e. outside the
mark-start..sweep-end interval) its `reachable` flag is still `true`:
`gc_sweep` does not clear the marks of the records it keeps, so the
claimed invariant "marked is false at every instant outside the cycle"
fails. -/
theorem c5_mark_persists_counterexample :
    (_gc_collect stC5 envC5).head = [⟨100, 4, true, 0⟩] ∧
    ¬ (∀ e ∈ (_gc_collect stC5 envC5).head, e.reachable = false) := by
  refine ⟨by decide, by decide⟩

/-- C5 amended: sweep keeps exactly the marked records and leaves their
mark bit set, so after a collection cycle every record still in the
registry has `reachable = true`; the marks are cleared only by the
reset loop at the start of the *next* cycle, not in between. -/
theorem c5_survivors_marked (st : gc_state) (env : collect_env)
    (e : gc_entry) (h : e ∈ (_gc_collect st env).head) :
    e.reachable = true := by
  have : (_gc_collect st env).head = (_gc_collect st env).head := rfl
  exact mem_gc_sweep (by simpa [_gc_collect] using h)

theorem c5_survivors_marked_witness :
    (⟨7, 8, true, 0⟩ : gc_entry) ∈ (_gc_collect stC5w envC5w).head ∧
    (⟨7, 8, true, 0⟩ : gc_entry).reachable = true :=
  ⟨by decide, c5_survivors_marked stC5w envC5w ⟨7, 8, true, 0⟩ (by decide)⟩

set_option maxRecDepth 4000 in
/-- C6 counterexample: the registry holds the mutual cycle `aC6`/`bC6`,
the only enabled root range is the heap region `[0, 24)`, and no word
read at any in-range position (`p + 8 ≤ 24`) equals either base — the
frozen claim's premise.  Yet the cycle survives in full: the
entry-tag match at cursor 0 advances the cursor by `sizeof(gc_entry) -
1 = 63` without re-testing the outer bound, the read at 63 (outside the
range) hits `aC6`'s base, which marks `aC6`, and the payload recursion
then marks `bC6`, so the sweep keeps both records instead of releasing
them. -/
theorem c6_cycle_survives_counterexample :
    (∀ p : Nat, p + wordSize ≤ 24 →
      wordAt memC6x p ≠ aC6.ptr ∧ wordAt memC6x p ≠ bC6.ptr) ∧
    wordAt memC6x aC6.ptr = bC6.ptr ∧
    wordAt memC6x bC6.ptr = aC6.ptr ∧
    (_gc_collect stC6x envC6x).head =
      [⟨1000, 16, true, 63⟩, ⟨2000, 16, true, 1000⟩] ∧
    (_gc_collect stC6x envC6x).head ≠ [] := by
  have hB : (gc_mark_aux memC6x true 1016
      [⟨1000, 16, true, 63⟩, ⟨2000, 16, false, 0⟩] 1000 0).val.1 =
      [⟨1000, 16, true, 63⟩, ⟨2000, 16, true, 1000⟩] := by
    rw [gc_mark_aux.eq_def]
    show (gc_mark_aux memC6x true 1016
      [⟨1000, 16, true, 63⟩, ⟨2000, 16, false, 0⟩] 1000 1).val.1 =
      [⟨1000, 16, true, 63⟩, ⟨2000, 16, true, 1000⟩]
    rw [gc_mark_aux.eq_def]
    show (gc_mark_aux memC6x true 1016
      ((gc_mark_aux memC6x true 2016
        [⟨1000, 16, true, 63⟩, ⟨2000, 16, true, 1000⟩] 2000 0).val.1)
      1000 2).val.1 =
      [⟨1000, 16, true, 63⟩, ⟨2000, 16, true, 1000⟩]
    rw [gc_mark_aux_allMarked memC6x true 2016
      [⟨1000, 16, true, 63⟩, ⟨2000, 16, true, 1000⟩] 2000 0 (by decide)]
    exact gc_mark_aux_allMarked memC6x true 1016
      [⟨1000, 16, true, 63⟩, ⟨2000, 16, true, 1000⟩] 1000 2 (by decide)
  have hmark : (gc_mark memC6x true
      [⟨1000, 16, false, 0⟩, ⟨2000, 16, false, 0⟩] 0 24).1 =
      [⟨1000, 16, true, 63⟩, ⟨2000, 16, true, 1000⟩] := by
    rw [gc_mark, if_pos (by decide : 0 + wordSize ≤ 24)]
    rw [gc_mark_aux.eq_def]
    show (gc_mark_aux memC6x true 24
      ((gc_mark_aux memC6x true 1016
        [⟨1000, 16, true, 63⟩, ⟨2000, 16, false, 0⟩] 1000 0).val.1)
      63 1).val.1 =
      [⟨1000, 16, true, 63⟩, ⟨2000, 16, true, 1000⟩]
    rw [hB]
    exact gc_mark_aux_allMarked memC6x true 24
      [⟨1000, 16, true, 63⟩, ⟨2000, 16, true, 1000⟩] 63 1 (by decide)
  have hcollect : (_gc_collect stC6x envC6x).head =
      [⟨1000, 16, true, 63⟩, ⟨2000, 16, true, 1000⟩] := by
    have hmap : stC6x.head.map
        (gc_premark_entry (stC6x.flags &&& GC_SCAN_REGISTERS != 0) envC6x.regs) =
        [⟨1000, 16, false, 0⟩, ⟨2000, 16, false, 0⟩] := by decide
    have h1 : (if stC6x.flags &&& GC_SCAN_STACK ≠ 0 then
        (gc_mark envC6x.mem false [⟨1000, 16, false, 0⟩, ⟨2000, 16, false, 0⟩]
          envC6x.stack_top stC6x.stack_start).1
        else [⟨1000, 16, false, 0⟩, ⟨2000, 16, false, 0⟩]) =
        [⟨1000, 16, false, 0⟩, ⟨2000, 16, false, 0⟩] := by
      rw [if_neg (by decide)]
    have h2 : (if stC6x.flags &&& GC_SCAN_DATA_SECTION ≠ 0 then
        (gc_mark envC6x.mem false [⟨1000, 16, false, 0⟩, ⟨2000, 16, false, 0⟩]
          stC6x.data.1 stC6x.data.2).1
        else [⟨1000, 16, false, 0⟩, ⟨2000, 16, false, 0⟩]) =
        [⟨1000, 16, false, 0⟩, ⟨2000, 16, false, 0⟩] := by
      rw [if_neg (by decide)]
    have h3 : (if stC6x.flags &&& GC_SCAN_BSS_SECTION ≠ 0 then
        (gc_mark envC6x.mem false [⟨1000, 16, false, 0⟩, ⟨2000, 16, false, 0⟩]
          stC6x.bss.1 stC6x.bss.2).1
        else [⟨1000, 16, false, 0⟩, ⟨2000, 16, false, 0⟩]) =
        [⟨1000, 16, false, 0⟩, ⟨2000, 16, false, 0⟩] := by
      rw [if_neg (by decide)]
    have h4 : (if stC6x.flags &&& GC_SCAN_HEAPS ≠ 0 then
        envC6x.heaps.foldl (fun acc h => (gc_mark envC6x.mem true acc h.1 h.2).1)
          [⟨1000, 16, false, 0⟩, ⟨2000, 16, false, 0⟩]
        else [⟨1000, 16, false, 0⟩, ⟨2000, 16, false, 0⟩]) =
        [⟨1000, 16, true, 63⟩, ⟨2000, 16, true, 1000⟩] := by
      rw [if_pos (by decide)]
      show (gc_mark memC6x true
        [⟨1000, 16, false, 0⟩, ⟨2000, 16, false, 0⟩] 0 24).1 =
        [⟨1000, 16, true, 63⟩, ⟨2000, 16, true, 1000⟩]
      exact hmark
    show gc_sweep _ = _
    rw [hmap, h1, h2, h3, h4]
    decide
  have hin : ∀ p < 17, wordAt memC6x p ≠ aC6.ptr ∧ wordAt memC6x p ≠ bC6.ptr := by
    decide
  refine ⟨fun p hp => hin p ?_, by decide, by decide, hcollect,
    by rw [hcollect]; decide⟩
  have hW : wordSize = 8 := rfl
  omega

/-- C6 amended: two tracked allocations whose payloads refer to each
other are both removed by a single collection cycle *provided no
candidate word read by any enabled scan equals either base* — and with
self-skip enabled the reads are not confined to the range, so the
no-reference condition must cover the tag-skip overshoot window
(`noHitPair` extends the range by `87 = sizeof(gc_state) - 1` bytes per
registry entry), not just the words inside the range as the frozen
claim has it (see `c6_cycle_survives_counterexample`).  Marking
terminates on the cycle because a record whose `reachable` flag is
already set is never marked or recursed into again (the
`e->reachable == false` guard in `gc_mark`). -/
theorem c6_cycle_reclaimed (st : gc_state) (env : collect_env)
    (a b : gc_entry) (hhead : st.head = [a, b])
    (hregs : st.flags &&& GC_SCAN_REGISTERS ≠ 0 →
      a.ptr ∉ env.regs ∧ b.ptr ∉ env.regs)
    (hstack : st.flags &&& GC_SCAN_STACK ≠ 0 →
      noHitPair env.mem a.ptr b.ptr env.stack_top st.stack_start)
    (hdata : st.flags &&& GC_SCAN_DATA_SECTION ≠ 0 →
      noHitPair env.mem a.ptr b.ptr st.data.1 st.data.2)
    (hbss : st.flags &&& GC_SCAN_BSS_SECTION ≠ 0 →
      noHitPair env.mem a.ptr b.ptr st.bss.1 st.bss.2)
    (hheaps : st.flags &&& GC_SCAN_HEAPS ≠ 0 →
      ∀ r ∈ env.heaps, noHitPair env.mem a.ptr b.ptr r.1 r.2) :
    (_gc_collect st env).head = [] := by
  have hA : gc_premark_entry (st.flags &&& GC_SCAN_REGISTERS != 0) env.regs a =
      ⟨a.ptr, a.size, false, 0⟩ :=
    gc_premark_entry_noHit _ _ _ (fun hs => (hregs (by simpa using hs)).1)
  have hB : gc_premark_entry (st.flags &&& GC_SCAN_REGISTERS != 0) env.regs b =
      ⟨b.ptr, b.size, false, 0⟩ :=
    gc_premark_entry_noHit _ _ _ (fun hs => (hregs (by simpa using hs)).2)
  have hmap : st.head.map
      (gc_premark_entry (st.flags &&& GC_SCAN_REGISTERS != 0) env.regs) =
      [⟨a.ptr, a.size, false, 0⟩, ⟨b.ptr, b.size, false, 0⟩] := by
    rw [hhead]
    simp [hA, hB]
  have HH : ∀ s e : Nat, noHitPair env.mem a.ptr b.ptr s e →
      ∀ x ∈ [(⟨a.ptr, a.size, false, 0⟩ : gc_entry), ⟨b.ptr, b.size, false, 0⟩],
        ∀ p, s ≤ p →
          p + 8 ≤ e + 87 * ([(⟨a.ptr, a.size, false, 0⟩ : gc_entry),
            ⟨b.ptr, b.size, false, 0⟩] : List gc_entry).length →
          wordAt env.mem p ≠ x.ptr := by
    intro s e hnh x hx p hp1 hp2
    have hlen : ([(⟨a.ptr, a.size, false, 0⟩ : gc_entry),
        ⟨b.ptr, b.size, false, 0⟩] : List gc_entry).length = 2 := rfl
    rw [hlen] at hp2
    have := hnh p (by omega) hp1 (by omega)
    rcases List.mem_cons.mp hx with rfl | hx'
    · exact this.1
    · rcases List.mem_cons.mp hx' with rfl | hx''
      · exact this.2
      · simp at hx''
  have h1 : (if st.flags &&& GC_SCAN_STACK ≠ 0 then
      (gc_mark env.mem false [⟨a.ptr, a.size, false, 0⟩, ⟨b.ptr, b.size, false, 0⟩]
        env.stack_top st.stack_start).1
      else [⟨a.ptr, a.size, false, 0⟩, ⟨b.ptr, b.size, false, 0⟩]) =
      [⟨a.ptr, a.size, false, 0⟩, ⟨b.ptr, b.size, false, 0⟩] := by
    split
    · exact gc_mark_noHit _ _ _ _ _ (HH _ _ (hstack ‹_›))
    · rfl
  have h2 : (if st.flags &&& GC_SCAN_DATA_SECTION ≠ 0 then
      (gc_mark env.mem false [⟨a.ptr, a.size, false, 0⟩, ⟨b.ptr, b.size, false, 0⟩]
        st.data.1 st.data.2).1
      else [⟨a.ptr, a.size, false, 0⟩, ⟨b.ptr, b.size, false, 0⟩]) =
      [⟨a.ptr, a.size, false, 0⟩, ⟨b.ptr, b.size, false, 0⟩] := by
    split
    · exact gc_mark_noHit _ _ _ _ _ (HH _ _ (hdata ‹_›))
    · rfl
  have h3 : (if st.flags &&& GC_SCAN_BSS_SECTION ≠ 0 then
      (gc_mark env.mem false [⟨a.ptr, a.size, false, 0⟩, ⟨b.ptr, b.size, false, 0⟩]
        st.bss.1 st.bss.2).1
      else [⟨a.ptr, a.size, false, 0⟩, ⟨b.ptr, b.size, false, 0⟩]) =
      [⟨a.ptr, a.size, false, 0⟩, ⟨b.ptr, b.size, false, 0⟩] := by
    split
    · exact gc_mark_noHit _ _ _ _ _ (HH _ _ (hbss ‹_›))
    · rfl
  have h4 : (if st.flags &&& GC_SCAN_HEAPS ≠ 0 then
      env.heaps.foldl (fun acc h => (gc_mark env.mem true acc h.1 h.2).1)
        [⟨a.ptr, a.size, false, 0⟩, ⟨b.ptr, b.size, false, 0⟩]
      else [⟨a.ptr, a.size, false, 0⟩, ⟨b.ptr, b.size, false, 0⟩]) =
      [⟨a.ptr, a.size, false, 0⟩, ⟨b.ptr, b.size, false, 0⟩] := by
    split
    · rename_i hf
      exact foldl_mark_noHit _ _ _
        (fun r hr => gc_mark_noHit _ _ _ _ _ (HH _ _ (hheaps hf r hr)))
    · rfl
  show gc_sweep _ = []
  rw [hmap, h1, h2, h3, h4]
  simp [gc_sweep]

set_option maxRecDepth 2000 in
/-- Witness for `c6_cycle_reclaimed` at a concrete mutual cycle. -/
theorem c6_cycle_reclaimed_witness :
    (wordAt memC6 aC6.ptr = bC6.ptr ∧ wordAt memC6 bC6.ptr = aC6.ptr ∧
      noHitPair memC6 aC6.ptr bC6.ptr 8 24) ∧
    (_gc_collect stC6 envC6).head = [] :=
  ⟨⟨by decide, by decide, by decide⟩,
    c6_cycle_reclaimed stC6 envC6 aC6 bC6 rfl
      (fun h => absurd (by decide) h)
      (fun _ => by decide)
      (fun h => absurd (by decide) h)
      (fun h => absurd (by decide) h)
      (fun h => absurd (by decide) h)⟩

/-- C7: if the payload `malloc` fails, `gc_alloc` returns `NULL` with
registry, counter and collection state untouched; if the payload
succeeds but the registry-record `malloc` fails, `gc_alloc` frees the
payload and returns `NULL`, again leaving the registry and counter
untouched.  No partial state survives either failure. -/
theorem c7_alloc_failure_clean (st : gc_state) (env : collect_env)
    (p ent sz : Nat) (z : Bool) :
    gc_alloc st env 0 ent sz z = ⟨st, 0, false, []⟩ ∧
    (p ≠ 0 → gc_alloc st env p 0 sz z = ⟨st, 0, false, [p]⟩) := by
  refine ⟨by simp [gc_alloc], fun hp => ?_⟩
  simp [gc_alloc, hp]

theorem c7_alloc_failure_clean_witness :
    (3 : Nat) ≠ 0 ∧ gc_alloc st0 env0 3 0 4 false = ⟨st0, 0, false, [3]⟩ :=
  ⟨by decide, (c7_alloc_failure_clean st0 env0 3 0 4 false).2 (by decide)⟩

/-- C8 counterexample: on a heap scan (self-skip enabled) over
`[0, 24)` with the `GC_TAG_ENTRY` bytes at the range start, the single
read happens at address 63 = `sizeof(gc_entry) - 1`: past
`end - wordsize` (63 + 8 > 24) and at no word-stride position, so the
claim as stated — which quantifies over every range passed to the mark
engine — is false. -/
theorem c8_read_out_of_range :
    (gc_mark memC8 true [⟨5, 4, false, 0⟩] 0 24).2 = [63] ∧
    ¬ (63 + 8 ≤ 24) ∧ (∀ k : Nat, 63 ≠ 0 + 8 * k) := by
  refine ⟨?_, by decide, fun k => by omega⟩
  rw [gc_mark, if_pos (by decide : 0 + wordSize ≤ 24)]
  rw [gc_mark_aux.eq_def, dif_pos (by decide : 0 < [(⟨5, 4, false, 0⟩ : gc_entry)].length)]
  rw [dif_neg (by decide : ¬ (wordAt memC8 (skipTags memC8 true 0) =
    ([(⟨5, 4, false, 0⟩ : gc_entry)].get ⟨0, by decide⟩).ptr ∧
    ([(⟨5, 4, false, 0⟩ : gc_entry)].get ⟨0, by decide⟩).reachable = false))]
  dsimp only
  rw [gc_mark_aux.eq_def, dif_neg (by decide : ¬ (1 < [(⟨5, 4, false, 0⟩ : gc_entry)].length))]
  rw [if_neg (by decide : ¬ (skipTags memC8 true 0 + wordSize + wordSize ≤ 24))]
  have : skipTags memC8 true 0 = 63 := by decide
  simp [this]

/-- C8 amended: with self-skip disabled (the stack/data/bss scans),
every word read by a `gc_mark` invocation over `[start, endd)` is at a
word-stride position `start + 8k` with the whole word inside the range,
and a range shorter than one word reads nothing at all.  With self-skip
enabled this fails (see the counterexample). -/
theorem c8_stride_reads (m : Mem) (es : List gc_entry) (start endd : Nat) :
    (∀ p ∈ (gc_mark m false es start endd).2,
      ∃ i, p = start + wordSize * i ∧ p + wordSize ≤ endd) ∧
    (endd < start + wordSize → (gc_mark m false es start endd).2 = []) := by
  constructor
  · intro p hp
    obtain ⟨k, hk, hb⟩ := gc_mark_stride m es start endd p hp
    exact ⟨k, by simpa [wordSize] using hk, by simpa [wordSize] using hb⟩
  · intro h
    rw [gc_mark, if_neg (by omega)]

/-- Witness for `c8_stride_reads` at a concrete one-word range. -/
theorem c8_stride_reads_witness :
    (0 ∈ (gc_mark mem0 false [⟨5, 4, false, 0⟩] 0 8).2) ∧
    (∃ i, 0 = 0 + wordSize * i ∧ 0 + wordSize ≤ 8) := by
  have hlog : (gc_mark mem0 false [⟨5, 4, false, 0⟩] 0 8).2 = [0] := by
    rw [gc_mark, if_pos (by decide : 0 + wordSize ≤ 8)]
    rw [gc_mark_aux.eq_def, dif_pos (by decide : 0 < [(⟨5, 4, false, 0⟩ : gc_entry)].length)]
    rw [dif_neg (by decide : ¬ (wordAt mem0 (skipTags mem0 false 0) =
      ([(⟨5, 4, false, 0⟩ : gc_entry)].get ⟨0, by decide⟩).ptr ∧
      ([(⟨5, 4, false, 0⟩ : gc_entry)].get ⟨0, by decide⟩).reachable = false))]
    dsimp only
    rw [gc_mark_aux.eq_def, dif_neg (by decide : ¬ (1 < [(⟨5, 4, false, 0⟩ : gc_entry)].length))]
    rw [if_neg (by decide : ¬ (skipTags mem0 false 0 + wordSize + wordSize ≤ 8))]
    rfl
  refine ⟨by rw [hlog]; exact List.mem_singleton.mpr rfl, ?_⟩
  exact (c8_stride_reads mem0 [⟨5, 4, false, 0⟩] 0 8).1 0
    (by rw [hlog]; exact List.mem_singleton.mpr rfl)

/-- C9: when the underlying `realloc` returns `NULL` for a tracked
address `old` with requested size `sz > 0`, `gc_realloc` writes that
`NULL` into the matched record's `ptr` field and returns `NULL`; the
record stays in the registry with base `0` and its old `size`, so the
registry is *not* left unchanged on this error path. -/
theorem c9_realloc_fail_null_base (st : gc_state) (env : collect_env)
    (mp me old sz : Nat) (pre post : List gc_entry) (e : gc_entry)
    (hhead : st.head = pre ++ e :: post)
    (hpre : ∀ x ∈ pre, x.ptr ≠ old)
    (he : e.ptr = old) (hold : old ≠ 0) (hsz : sz ≠ 0) :
    gc_realloc st env mp me old sz 0 =
      ({ st with head := pre ++ { e with ptr := 0 } :: post }, 0) := by
  simp only [gc_realloc, hold, hsz, if_neg, ite_false, hhead]
  rw [gc_realloc_loop_first_match 0 old pre post e hpre he]

theorem c9_realloc_fail_null_base_witness :
    (100 : Nat) ≠ 0 ∧ (4 : Nat) ≠ 0 ∧
    gc_realloc stC2 env0 0 0 100 4 0 =
      ({ stC2 with head := [⟨0, 4, false, 0⟩] }, 0) := by
  refine ⟨by decide, by decide, ?_⟩
  have h := c9_realloc_fail_null_base stC2 env0 0 0 100 4 []
    [] ⟨100, 4, false, 0⟩ (by decide) (by intro x hx; simp at hx)
    (by decide) (by decide) (by decide)
  simpa using h

/-- C10: `gc_free(state, p)` with `p ≠ NULL` removes *every* record
whose base equals `p` (the traversal continues from the saved `next`
after each unlink), updates `state->head` when the removed record was
the head, relinks the surviving neighbours' `prev`/`next`, and leaves
the survivors — payload fields untouched — as a well-formed
doubly-linked list; if no record's base equals `p`, the store and head
are unchanged.  `fuel` is any bound at least the registry length. -/
theorem c10_free_removes_all_matches (h : Heap) (head : Option Nat)
    (l : List (Nat × gc_node)) (p fuel : Nat)
    (hp : p ≠ 0)
    (hchain : chain h none head l)
    (hnd : (idsOf l).Nodup)
    (hfuel : l.length ≤ fuel) :
    chain (gc_free_heap h head p fuel).1 none
        (headId (keepP p l)) (relink none (keepP p l)) ∧
    (gc_free_heap h head p fuel).2 = headId (keepP p l) ∧
    ((∀ x ∈ l, x.2.ptr ≠ p) → gc_free_heap h head p fuel = (h, head)) := by
  have hunf : gc_free_heap h head p fuel = gc_free_loop p fuel h head head := by
    rw [gc_free_heap, if_neg hp]
  have hspec := gc_free_loop_spec l.length l h head none head p fuel
    (le_refl _) hchain hnd hfuel
    (fun q hq => Option.noConfusion hq)
    (fun _ => rfl)
    (fun q qn hq => Option.noConfusion hq)
  rw [hunf]
  exact ⟨hspec.1, hspec.2.1 rfl,
    fun hnm => by
      rw [gc_free_loop_noMatch l h head none head p fuel hchain hnm hfuel]⟩

/-- Witness for `c10_free_removes_all_matches`: three records, two of
them with base 10. -/
theorem c10_free_removes_all_matches_witness :
    ((10 : Nat) ≠ 0 ∧ chain hC10 none (some 1) lC10 ∧
      (idsOf lC10).Nodup ∧ lC10.length ≤ 3) ∧
    (chain (gc_free_heap hC10 (some 1) 10 3).1 none
        (headId (keepP 10 lC10)) (relink none (keepP 10 lC10)) ∧
      (gc_free_heap hC10 (some 1) 10 3).2 = headId (keepP 10 lC10) ∧
      ((∀ x ∈ lC10, x.2.ptr ≠ 10) →
        gc_free_heap hC10 (some 1) 10 3 = (hC10, some 1))) :=
  ⟨⟨by decide, by decide, by decide, by decide⟩,
    c10_free_removes_all_matches hC10 (some 1) lC10 10 3
      (by decide) (by decide) (by decide) (by decide)⟩

end GC
